import Mathlib

/-!
# Verification of pgexporter `queries.c`

Shallow embedding of `src/libpgexporter/queries.c` (pgexporter's query
execution core) and proofs of the specified properties.

Conventions of the embedding:
* C byte buffers are `List Nat` (each element a byte value `0..255`);
  C strings are the byte lists they hold up to the terminating NUL, so
  `strcmp(x, y) == 0` is list equality.
* The singly linked `struct tuples` chain is a `List Tuple`; each list
  node owns one `struct tuple`.
* Machine `int` values are `Int`; the 32-bit wire words are read and
  written with explicit `% 2^32` arithmetic.
* External collaborators (authenticator, transport, logging) are
  modelled as emitted actions or oracles; helper functions of this
  repository that live outside `queries.c` (`pgexporter_read_int32`,
  `pgexporter_write_int32`, `pgexporter_has_message`,
  `pgexporter_extract_message_offset`) are modelled from the spec, as
  noted on each definition.
-/

namespace PgExporter

/-- The decoded row record, `struct tuple` of `queries.h`: originating
server, declared column count, query tag, and the three bounded string
fields `name` / `value` / `desc` (zeroed by `memset` before decoding, so
an untouched field is the empty byte string). -/
structure Tuple where
  server : Int
  columns : Int
  tag : List Nat
  name : List Nat
  value : List Nat
  desc : List Nat
deriving Repr, DecidableEq

/-- The body of the `while (ct1 != NULL)` walk of `pgexporter_merge_tuples`
(queries.c:139-166), including the final `while (ct2 != NULL)` append:
the first argument is the remainder of the chain being walked by `ct1`
(which absorbs spliced nodes of `t2`), the second the remainder of `t2`.
When the `ct1` walk ends, whatever remains of `ct2` is linked at the tail;
on a name match, `ct1` first advances through the contiguous equal-name
run (queries.c:143-146), then the `t2` node is spliced in right after the
run and the walk resumes at the spliced node. -/
def mergeLoop : List Tuple → List Tuple → List Tuple
  | [], b => b
  | a :: as, [] => a :: as
  | a :: as, bn :: bs =>
    if a.name = bn.name then
      a :: (as.takeWhile (fun x => x.name = bn.name) ++
        mergeLoop (bn :: as.dropWhile (fun x => x.name = bn.name)) bs)
    else
      a :: mergeLoop as (bn :: bs)
termination_by a b => (b.length, a.length)
decreasing_by
  · exact Prod.Lex.left _ _ (Nat.lt_succ_self _)
  · exact Prod.Lex.right _ (Nat.lt_succ_self _)

/-- `pgexporter_merge_tuples` (queries.c:117-169): the two early returns
for a `NULL` argument (queries.c:126-134), then the splicing walk. -/
def pgexporter_merge_tuples (t1 t2 : List Tuple) : List Tuple :=
  if t1 = [] then t2
  else if t2 = [] then t1
  else mergeLoop t1 t2

/-- A list is grouped by name when equal-name nodes are contiguous: once
the run of the head's name ends, that name never reappears. -/
def isGrouped : List Tuple → Bool
  | [] => true
  | x :: xs =>
    ((xs.dropWhile (fun y => y.name = x.name)).all (fun y => !(y.name = x.name)))
      && isGrouped xs

/-- Modelled from the spec: the §4.5 description of the group-aware merge,
written from the spec's words to be compared with `mergeLoop`: walk `a`
with a cursor; on a name match with `b`'s current node `bn`, advance the
cursor through the entire contiguous run in `a` sharing that name, splice
`bn` in as the immediate successor of the run with the remainder of `a`
following it, advance `b`, and resume the cursor at the spliced node;
with no match, advance the cursor by one; when `a` is exhausted, append
the remainder of `b` in its original relative order. -/
def mergeSpec : List Tuple → List Tuple → List Tuple
  | [], b => b
  | a :: as, [] => a :: as
  | a :: as, bn :: bs =>
    if a.name = bn.name then
      a :: (as.takeWhile (fun x => x.name = a.name) ++
        mergeSpec (bn :: as.dropWhile (fun x => x.name = a.name)) bs)
    else
      a :: mergeSpec as (bn :: bs)
termination_by a b => (b.length, a.length)
decreasing_by
  · exact Prod.Lex.left _ _ (Nat.lt_succ_self _)
  · exact Prod.Lex.right _ (Nat.lt_succ_self _)

/-- Helper to build a two-column tuple with given name and value byte
strings (server 0, empty tag and description). -/
def mkTuple (n v : List Nat) : Tuple :=
  { server := 0, columns := 2, tag := [], name := n, value := v, desc := [] }

/-- Bytes of the ASCII string "db1". -/
def db1 : List Nat := [100, 98, 49]
/-- Bytes of the ASCII string "db2". -/
def db2 : List Nat := [100, 98, 50]

/-- `pgexporter_free_tuples` (queries.c:171-190): walks the chain, calling
`free` on each node's tuple and then on the node itself (two releases per
node), and finally returns 0. The model returns the number of `free`
calls performed together with the function's return value. -/
structure FreeResult where
  releases : Nat
  ret : Int
deriving Repr, DecidableEq

def pgexporter_free_tuples : List Tuple → FreeResult
  | [] => { releases := 0, ret := 0 }
  | _ :: rest =>
    let r := pgexporter_free_tuples rest
    { releases := 2 + r.releases, ret := r.ret }

/-- A configured server entry (`struct server` fields used by queries.c):
name, configured username, and the connection descriptor, `-1` when
disconnected. -/
structure Server where
  name : List Nat
  username : List Nat
  fd : Int
deriving Repr, DecidableEq

/-- Transport operations emitted by `pgexporter_close_connections`; the
write of the termination frame and the channel close are external
collaborators, recorded as actions in program order. -/
inductive TransportAction where
  | terminate (fd : Int)
  | disconnect (fd : Int)
deriving Repr, DecidableEq

/-- `pgexporter_close_connections` (queries.c:78-94): for each server with
a live descriptor (`fd != -1`), call `pgexporter_write_terminate` then
`pgexporter_disconnect` on it and reset the descriptor to `-1`; servers
already at `-1` are left alone. Returns the updated server table and the
emitted transport actions. -/
def pgexporter_close_connections : List Server → List Server × List TransportAction
  | [] => ([], [])
  | s :: rest =>
    let r := pgexporter_close_connections rest
    if s.fd ≠ -1 then
      ({ s with fd := -1 } :: r.1,
       TransportAction.terminate s.fd :: TransportAction.disconnect s.fd :: r.2)
    else
      (s :: r.1, r.2)

/-- A configured user entry (`struct user` fields used by queries.c). -/
structure User where
  username : List Nat
  password : List Nat
deriving Repr, DecidableEq

/-- One invocation of the external `pgexporter_server_authenticate`:
the server index and the index used to read `config->users[...]` for the
credential; `-1` records that the username lookup found nothing and the
users array is indexed out of bounds. -/
structure AuthCall where
  server : Nat
  userIdx : Int
deriving Repr, DecidableEq

/-- The credential lookup loop of `pgexporter_open_connections`
(queries.c:58-65): `user` starts at `-1` and becomes the index of the
first user whose username equals the server's username; it stays `-1`
when no username matches. -/
def findUserFrom : List User → List Nat → Nat → Int
  | [], _, _ => -1
  | u :: rest, uname, idx =>
    if u.username = uname then (idx : Int) else findUserFrom rest uname (idx + 1)

def findUser (users : List User) (uname : List Nat) : Int :=
  findUserFrom users uname 0

/-- `pgexporter_open_connections` (queries.c:45-76): for every server with
`fd == -1`, run the credential lookup and then call
`pgexporter_server_authenticate` with `config->users[user]` — the source
makes this call unconditionally, even when `user` is still `-1`. The
model records the authenticate calls in order. -/
def pgexporter_open_connections (users : List User) (servers : List Server) : List AuthCall :=
  servers.enum.filterMap (fun p =>
    if p.2.fd = -1 then
      some { server := p.1, userIdx := findUser users p.2.username }
    else
      none)

/-- Modelled from the spec: `pgexporter_read_int32` (a utils helper of
this repository, not under src/) reads a four-byte big-endian signed
32-bit value at `off` (spec §4.2: "a four-byte big-endian length"); a
missing byte reads as 0. -/
def pgexporter_read_int32 (data : List Nat) (off : Nat) : Int :=
  let u : Nat := data.getD off 0 * 2 ^ 24 + data.getD (off + 1) 0 * 2 ^ 16 +
    data.getD (off + 2) 0 * 2 ^ 8 + data.getD (off + 3) 0
  if u < 2 ^ 31 then (u : Int) else (u : Int) - 2 ^ 32

/-- The big-endian two's-complement bytes of a 32-bit word. -/
def encodeInt32 (v : Int) : List Nat :=
  let u : Nat := (v % 2 ^ 32).toNat
  [u / 2 ^ 24 % 256, u / 2 ^ 16 % 256, u / 2 ^ 8 % 256, u % 256]

/-- Overwrite the bytes `bs` into `buf` starting at position `off`
(`memcpy` into the middle of a buffer). -/
def writeBytes (buf : List Nat) (off : Nat) (bs : List Nat) : List Nat :=
  buf.take off ++ bs ++ buf.drop (off + bs.length)

/-- Modelled from the spec: `pgexporter_write_byte` (utils helper outside
src/) stores one byte. -/
def pgexporter_write_byte (buf : List Nat) (off : Nat) (b : Nat) : List Nat :=
  buf.set off b

/-- Modelled from the spec: `pgexporter_write_int32` (utils helper outside
src/) stores a four-byte big-endian 32-bit value (spec §4.2). -/
def pgexporter_write_int32 (buf : List Nat) (off : Nat) (v : Int) : List Nat :=
  writeBytes buf off (encodeInt32 v)

/-- Modelled from the spec: `pgexporter_write_string` (utils helper
outside src/) copies the text's bytes; the terminating NUL of the frame
is already present from the `memset` of the buffer. -/
def pgexporter_write_string (buf : List Nat) (off : Nat) (s : List Nat) : List Nat :=
  writeBytes buf off s

/-- The query-frame construction of `query_execute` (queries.c:212-222):
a zeroed buffer of `1 + 4 + strlen(query) + 1` bytes, kind byte 'Q' (81)
written at 0, `size - 1` written as int32 at 1, and the query text
written at 5. -/
def encodeSimpleQuery (query : List Nat) : List Nat :=
  let size := 1 + 4 + query.length + 1
  pgexporter_write_string
    (pgexporter_write_int32
      (pgexporter_write_byte (List.replicate size 0) 0 81)
      1 ((size : Int) - 1))
    5 query

/-- One field read of `create_D_tuple` (queries.c:328-335, repeated under
the `columns >= 2` and `columns >= 3` guards): read an int32 length at
`off` and advance 4 bytes; when the length is positive, copy that many
bytes into the slot and advance past them; otherwise the slot stays
empty. Returns the slot contents and the new offset. -/
def decodeField (data : List Nat) (off : Nat) : List Nat × Nat :=
  let len := pgexporter_read_int32 data off
  if len > 0 then ((data.drop (off + 4)).take len.toNat, off + 4 + len.toNat)
  else ([], off + 4)

/-- `create_D_tuple` (queries.c:308-367): a zeroed tuple stamped with
server, columns and tag; the read offset starts at 7 (kind byte, int32
message length, two-byte field count of the 'D' message); the name field
is always read, the value field when `columns >= 2`, the description
field when `columns >= 3`. -/
def create_D_tuple (server : Int) (columns : Int) (tag : List Nat)
    (data : List Nat) : Tuple :=
  let r1 := decodeField data 7
  let r2 := if columns ≥ 2 then decodeField data r1.2 else ([], r1.2)
  let r3 := if columns ≥ 3 then decodeField data r2.2 else ([], r2.2)
  { server := server, columns := columns, tag := tag,
    name := r1.1, value := r2.1, desc := r3.1 }

/-- Modelled from the spec: one field of a row-data message on the wire —
a four-byte length followed by that many bytes when the field is present,
or the negative sentinel `-1` when it is absent (spec §4.4). -/
def encodeField : Option (List Nat) → List Nat
  | none => encodeInt32 (-1)
  | some bs => encodeInt32 (bs.length : Int) ++ bs

/-- The decoded contents of a wire field: its bytes when present, empty
when absent. -/
def fieldVal : Option (List Nat) → List Nat
  | none => []
  | some bs => bs

/-- Modelled from the spec: a well-formed row-data ('D') message — kind
byte 68, a four-byte big-endian length covering everything but the kind
byte, a two-byte field count, then the encoded fields (spec §4.2, §4.4).
-/
def encodeDMessage (fields : List (Option (List Nat))) : List Nat :=
  let body := fields.flatMap encodeField
  [68] ++ encodeInt32 (4 + 2 + (body.length : Int)) ++
    [fields.length / 256 % 256, fields.length % 256] ++ body

/-- A wire-protocol message as yielded by message extraction: kind byte,
total frame length, and the raw frame bytes (`msg->data` of the C code —
`create_D_tuple` reads at offset 7 within it, so it includes the kind
byte and the length word). -/
structure Msg where
  kind : Nat
  length : Nat
  data : List Nat
deriving Repr, DecidableEq

/-- Modelled from the spec: `pgexporter_extract_message_offset` applied
repeatedly, the spec's `SplitMessages` (§4.2): at the cursor read a
one-byte kind and a four-byte length (the length value excludes the kind
byte but includes itself), yield the message whose raw data is the whole
frame of `1 + length` bytes, advance the cursor past the frame, and stop
at the buffer end. -/
def splitMessages (data : List Nat) : List Msg :=
  match data with
  | [] => []
  | b :: rest =>
    let len := (pgexporter_read_int32 (b :: rest) 1).toNat
    { kind := b, length := 1 + len, data := (b :: rest).take (1 + len) } ::
      splitMessages ((b :: rest).drop (1 + len))
termination_by data.length
decreasing_by simp

/-- Modelled from the spec: `pgexporter_has_message`, the spec's
`IsReady` generalized to a kind byte (§4.2) — whether a message of the
given kind is present anywhere in the buffer. -/
def pgexporter_has_message (kind : Nat) (data : List Nat) : Bool :=
  (splitMessages data).any (fun m => m.kind == kind)

/-- One outcome of the blocking transport read
(`pgexporter_read_block_message`, an external collaborator): a received
wire unit's raw bytes, or a failure status. -/
inductive ReadResult where
  | ok (bytes : List Nat)
  | fail
deriving Repr, DecidableEq

/-- The response-accumulation loop of `query_execute` (queries.c:230-252):
every successful blocking read appends the unit's raw bytes to the
growing buffer and the loop stops at the first sighting of a
ready-for-query ('Z', byte 90) message anywhere in the buffer; a failed
read aborts with an error. `none` models the oracle running out of read
results before ready is seen — there the C loop would still be blocked
reading, so no result is observable. -/
def accumulate : List ReadResult → List Nat → Option (Except Unit (List Nat))
  | [], _ => none
  | ReadResult.fail :: _, _ => some (Except.error ())
  | ReadResult.ok bs :: rest, data =>
    let d := data ++ bs
    if pgexporter_has_message 90 d then some (Except.ok d) else accumulate rest d

/-- The message-walk of `query_execute` (queries.c:254-278): visit the
accumulated buffer frame by frame; each 'D' (68) message is decoded by
`create_D_tuple` and linked at the tail of the result list, any other
kind is skipped. The C loop advances an offset over one buffer; the walk
here consumes the buffer from the front, visiting the identical frames.
-/
def parseLoop (server : Int) (columns : Int) (tag : List Nat) :
    List Nat → List Tuple
  | [] => []
  | b :: rest =>
    let len := (pgexporter_read_int32 (b :: rest) 1).toNat
    let tl := parseLoop server columns tag ((b :: rest).drop (1 + len))
    if b == 68 then
      create_D_tuple server columns tag ((b :: rest).take (1 + len)) :: tl
    else tl
termination_by data => data.length
decreasing_by simp

/-- `query_execute` (queries.c:192-292): encode and send the query frame
(`encodeSimpleQuery`; the send outcome and the blocking reads are
supplied by the transport oracle `sendOk` / `reads`); on a send or read
failure take the error exit, which frees the partial buffer, never
assigns `*tuples`, and returns 1 — modelled as `Except.error ()`
carrying no tuples; on success parse the accumulated buffer and return
the tuple list. `none` when the oracle is exhausted before the ready
message (the C code would still be blocking). -/
def query_execute (server : Int) (query : List Nat) (tag : List Nat)
    (columns : Int) (sendOk : Bool) (reads : List ReadResult) :
    Option (Except Unit (List Tuple)) :=
  if !sendOk then some (Except.error ())
  else
    match accumulate reads [] with
    | none => none
    | some (Except.error _) => some (Except.error ())
    | some (Except.ok data) =>
      some (Except.ok (parseLoop server columns tag data))

theorem mergeLoop_eq_mergeSpec : ∀ a b : List Tuple, mergeLoop a b = mergeSpec a b := by
  intro a b
  induction a, b using mergeLoop.induct with
  | case1 b => simp [mergeLoop, mergeSpec]
  | case2 a as => simp [mergeLoop, mergeSpec]
  | case3 a as bn bs h ih =>
    simp [mergeLoop, mergeSpec, h, ih]
  | case4 a as bn bs h ih =>
    simp [mergeLoop, mergeSpec, h, ih]

theorem mergeLoop_perm : ∀ a b : List Tuple, (mergeLoop a b).Perm (a ++ b) := by
  intro a b
  induction a, b using mergeLoop.induct with
  | case1 b => simp [mergeLoop]
  | case2 a as => simp [mergeLoop]
  | case3 a as bn bs h ih =>
    rw [mergeLoop, if_pos h]
    have hsplit : as.takeWhile (fun x => x.name = bn.name) ++
        as.dropWhile (fun x => x.name = bn.name) = as :=
      List.takeWhile_append_dropWhile _ _
    refine List.Perm.cons a ?_
    have key : (as.takeWhile (fun x => x.name = bn.name) ++
          (bn :: (as.dropWhile (fun x => x.name = bn.name) ++ bs))).Perm
        ((as.takeWhile (fun x => x.name = bn.name) ++
          as.dropWhile (fun x => x.name = bn.name)) ++ (bn :: bs)) := by
      rw [List.append_assoc]
      exact List.Perm.append_left _ List.perm_middle.symm
    rw [hsplit] at key
    exact List.Perm.trans (List.Perm.append_left _ ih) key
  | case4 a as bn bs h ih =>
    rw [mergeLoop, if_neg h]
    exact List.Perm.cons a ih

/-- C2: for grouped non-empty tuple lists, `pgexporter_merge_tuples`
follows the spec's group-aware splice: on a name match the cursor runs to
the end of the contiguous equal-name run in `a`, `b`'s node is spliced in
right after the run with the remainder of `a` following, and `b`
advances; once `a` is exhausted the remainder of `b` is appended in its
original order (`mergeSpec` is that description); in particular, merging
[("db1","10"), ("db1","11"), ("db2","20")] with [("db1","99")] yields
[("db1","10"), ("db1","11"), ("db1","99"), ("db2","20")]. -/
theorem merge_tuples_follows_spec :
    (∀ a b : List Tuple, a ≠ [] → b ≠ [] → isGrouped a = true → isGrouped b = true →
      pgexporter_merge_tuples a b = mergeSpec a b) ∧
    pgexporter_merge_tuples
        [mkTuple db1 [49, 48], mkTuple db1 [49, 49], mkTuple db2 [50, 48]]
        [mkTuple db1 [57, 57]] =
      [mkTuple db1 [49, 48], mkTuple db1 [49, 49], mkTuple db1 [57, 57],
       mkTuple db2 [50, 48]] := by
  constructor
  · intro a b ha hb _ _
    simp [pgexporter_merge_tuples, ha, hb, mergeLoop_eq_mergeSpec]
  · simp [pgexporter_merge_tuples, mergeLoop, mkTuple, db1, db2]

/-- Witness for C2 at a concrete grouped input. -/
theorem merge_tuples_follows_spec_witness :
    pgexporter_merge_tuples [mkTuple db1 [49, 48]] [mkTuple db2 [50, 48]] =
      mergeSpec [mkTuple db1 [49, 48]] [mkTuple db2 [50, 48]] :=
  merge_tuples_follows_spec.1 _ _ (by decide) (by decide) (by decide) (by decide)

/-- C7: merging with an empty list on either side returns the other list
unchanged: `Merge(empty, X) == X` and `Merge(X, empty) == X`. -/
theorem merge_tuples_empty_identity (X : List Tuple) :
    pgexporter_merge_tuples [] X = X ∧ pgexporter_merge_tuples X [] = X := by
  refine ⟨by simp [pgexporter_merge_tuples], ?_⟩
  by_cases h : X = []
  · simp [pgexporter_merge_tuples, h]
  · simp [pgexporter_merge_tuples, h]

/-- C9: for grouped inputs, the merged list is a permutation of the two
inputs' nodes — nothing is dropped or duplicated — and its length is the
sum of the input lengths. -/
theorem merge_tuples_preserves_nodes (a b : List Tuple)
    (ha : isGrouped a = true) (hb : isGrouped b = true) :
    (pgexporter_merge_tuples a b).Perm (a ++ b) ∧
    (pgexporter_merge_tuples a b).length = a.length + b.length := by
  have hp : (pgexporter_merge_tuples a b).Perm (a ++ b) := by
    by_cases h1 : a = []
    · simp [pgexporter_merge_tuples, h1]
    · by_cases h2 : b = []
      · simp [pgexporter_merge_tuples, h1, h2]
      · simpa [pgexporter_merge_tuples, h1, h2] using mergeLoop_perm a b
  exact ⟨hp, by rw [hp.length_eq, List.length_append]⟩

/-- Witness for C9 at a concrete grouped input. -/
theorem merge_tuples_preserves_nodes_witness :
    (pgexporter_merge_tuples [mkTuple db2 [50, 48]]
        [mkTuple db1 [49, 48], mkTuple db1 [49, 49]]).Perm
      ([mkTuple db2 [50, 48]] ++ [mkTuple db1 [49, 48], mkTuple db1 [49, 49]]) ∧
    (pgexporter_merge_tuples [mkTuple db2 [50, 48]]
        [mkTuple db1 [49, 48], mkTuple db1 [49, 49]]).length =
      ([mkTuple db2 [50, 48]] : List Tuple).length +
        ([mkTuple db1 [49, 48], mkTuple db1 [49, 49]] : List Tuple).length :=
  merge_tuples_preserves_nodes _ _ (by decide) (by decide)

/-- C10: `pgexporter_free_tuples` on the empty (NULL) list performs no
releases and returns 0, and it returns 0 on every list. -/
theorem free_tuples_returns_zero :
    pgexporter_free_tuples [] = { releases := 0, ret := 0 } ∧
    ∀ l : List Tuple, (pgexporter_free_tuples l).ret = 0 := by
  refine ⟨rfl, ?_⟩
  intro l
  induction l with
  | nil => rfl
  | cons x rest ih => simp [pgexporter_free_tuples, ih]

/-- C8: after `pgexporter_close_connections`, every server's descriptor is
the disconnected sentinel `-1`; each server that was live gets exactly a
termination frame followed by a disconnect of its old descriptor, and
already-disconnected servers are untouched (the `fd := -1` update is the
identity on them) and emit no actions. -/
theorem close_connections_spec (servers : List Server) :
    pgexporter_close_connections servers =
      (servers.map (fun s => { s with fd := -1 }),
       servers.flatMap (fun s =>
         if s.fd = -1 then []
         else [TransportAction.terminate s.fd, TransportAction.disconnect s.fd])) := by
  induction servers with
  | nil => rfl
  | cons s rest ih =>
    obtain ⟨nm, un, fd⟩ := s
    by_cases h : fd = -1
    · subst h
      simp [pgexporter_close_connections, ih]
    · simp [pgexporter_close_connections, h, ih]

/-- C1 (failing input): with one user "bob" and one disconnected server
whose username is "alice", no credential matches, yet
`pgexporter_open_connections` still emits an authenticate call, with user
index `-1` (an out-of-bounds read of `config->users`); the claim and the
spec require the backend to be skipped with no authenticate call. -/
theorem open_connections_calls_auth_without_credential :
    pgexporter_open_connections
        [{ username := [98, 111, 98], password := [112, 119] }]
        [{ name := [115, 49], username := [97, 108, 105, 99, 101], fd := -1 }] =
      [{ server := 0, userIdx := -1 }] := by
  decide

theorem read_write_int32 (pre : List Nat) (v : Int) (rest : List Nat)
    (h1 : -2 ^ 31 ≤ v) (h2 : v < 2 ^ 31) :
    pgexporter_read_int32 (pre ++ (encodeInt32 v ++ rest)) pre.length = v := by
  have hg : ∀ i : Nat, (pre ++ (encodeInt32 v ++ rest)).getD (pre.length + i) 0 =
      (encodeInt32 v ++ rest).getD i 0 := by
    intro i
    rw [List.getD_append_right _ _ _ _ (Nat.le_add_right _ _), Nat.add_sub_cancel_left]
  have h0 := hg 0
  rw [Nat.add_zero] at h0
  unfold pgexporter_read_int32
  rw [h0, hg 1, hg 2, hg 3]
  unfold encodeInt32
  simp only [List.cons_append, List.nil_append, List.getD_cons_zero, List.getD_cons_succ]
  split <;> omega

theorem length_encodeInt32 (v : Int) : (encodeInt32 v).length = 4 := by
  simp [encodeInt32]

theorem length_encodeField (f : Option (List Nat)) :
    (encodeField f).length = 4 + (fieldVal f).length := by
  cases f <;> simp [encodeField, fieldVal, length_encodeInt32]

theorem decodeField_encodeField (pre : List Nat) (f : Option (List Nat)) (rest : List Nat)
    (off : Nat) (hoff : pre.length = off)
    (hf : ∀ bs, f = some bs → (bs.length : Int) < 2 ^ 31) :
    decodeField (pre ++ (encodeField f ++ rest)) off =
      (fieldVal f, off + (encodeField f).length) := by
  subst hoff
  cases f with
  | none =>
    unfold decodeField encodeField
    rw [read_write_int32 pre (-1) rest (by norm_num) (by norm_num)]
    norm_num [fieldVal, length_encodeField, length_encodeInt32]
  | some bs =>
    have hlen := hf bs rfl
    unfold decodeField encodeField
    rw [List.append_assoc (encodeInt32 (bs.length : Int)) bs rest]
    rw [read_write_int32 pre (bs.length : Int) (bs ++ rest) (by omega) hlen]
    by_cases hb : (0 : Int) < (bs.length : Int)
    · rw [if_pos hb]
      have hdrop : (pre ++ (encodeInt32 (bs.length : Int) ++ (bs ++ rest))).drop
          (pre.length + 4) = bs ++ rest := by
        have : pre.length + 4 = (pre ++ encodeInt32 (bs.length : Int)).length := by
          simp [length_encodeInt32]
        rw [this, ← List.append_assoc, List.drop_left]
      rw [hdrop]
      simp [fieldVal, length_encodeField, length_encodeInt32, List.take_left]
      omega
    · rw [if_neg hb]
      have hbs : bs = [] := by
        have : bs.length = 0 := by omega
        exact List.length_eq_zero.mp this
      subst hbs
      simp [fieldVal, length_encodeField, length_encodeInt32]

/-- C3: for every expected column count 1..3 and every well-formed
row-data message, `create_D_tuple` populates exactly the first N string
fields in order (name; value when N ≥ 2; description when N ≥ 3) and
leaves the rest empty; a field whose four-byte length word is
non-negative is copied from the payload (`fieldVal (some bs) = bs`,
including the zero-length case, which copies nothing and leaves the slot
empty), and a field whose length word is the negative absent sentinel is
left empty (`fieldVal none = []`); the tuple carries the given server,
column count and tag. -/
theorem create_D_tuple_wellformed (server : Int) (tag : List Nat) (columns : Int)
    (f1 f2 f3 : Option (List Nat))
    (hc1 : 1 ≤ columns) (hc2 : columns ≤ 3)
    (hf : ∀ f ∈ [f1, f2, f3], ∀ bs, f = some bs → (bs.length : Int) < 2 ^ 31) :
    create_D_tuple server columns tag
        (encodeDMessage (([f1, f2, f3]).take columns.toNat)) =
      { server := server, columns := columns, tag := tag,
        name := fieldVal f1,
        value := if 2 ≤ columns then fieldVal f2 else [],
        desc := if 3 ≤ columns then fieldVal f3 else [] } := by
  have hf1 : ∀ bs, f1 = some bs → (bs.length : Int) < 2 ^ 31 := hf f1 (by simp)
  have hf2 : ∀ bs, f2 = some bs → (bs.length : Int) < 2 ^ 31 := hf f2 (by simp)
  have hf3 : ∀ bs, f3 = some bs → (bs.length : Int) < 2 ^ 31 := hf f3 (by simp)
  interval_cases columns
  · -- columns = 1: only the name field is read
    show create_D_tuple server 1 tag (encodeDMessage [f1]) = _
    set L : Int := 4 + 2 + ((([f1]).flatMap encodeField).length : Int) with hL
    set hdr : List Nat := [68] ++ encodeInt32 L ++ [(1 : Nat) / 256 % 256, 1 % 256]
      with hhdr
    have hdata : encodeDMessage [f1] = hdr ++ encodeField f1 := by
      simp [encodeDMessage, hL, hhdr, List.append_assoc]
    have hname : decodeField (hdr ++ encodeField f1) 7 =
        (fieldVal f1, 7 + (encodeField f1).length) := by
      have h := decodeField_encodeField hdr f1 [] 7
        (by simp [hhdr, length_encodeInt32]) hf1
      simpa using h
    rw [hdata]
    simp only [create_D_tuple, hname]
    norm_num
  · -- columns = 2: name then value
    show create_D_tuple server 2 tag (encodeDMessage [f1, f2]) = _
    set L : Int := 4 + 2 + ((([f1, f2]).flatMap encodeField).length : Int) with hL
    set hdr : List Nat := [68] ++ encodeInt32 L ++ [(2 : Nat) / 256 % 256, 2 % 256]
      with hhdr
    have hdata : encodeDMessage [f1, f2] =
        hdr ++ (encodeField f1 ++ encodeField f2) := by
      simp [encodeDMessage, hL, hhdr, List.append_assoc]
    have hname : decodeField (hdr ++ (encodeField f1 ++ encodeField f2)) 7 =
        (fieldVal f1, 7 + (encodeField f1).length) :=
      decodeField_encodeField hdr f1 (encodeField f2) 7
        (by simp [hhdr, length_encodeInt32]) hf1
    have hvalue : decodeField (hdr ++ (encodeField f1 ++ encodeField f2))
        (7 + (encodeField f1).length) =
        (fieldVal f2, 7 + (encodeField f1).length + (encodeField f2).length) := by
      have h := decodeField_encodeField (hdr ++ encodeField f1) f2 []
        (7 + (encodeField f1).length)
        (by simp [hhdr, length_encodeInt32]; try omega) hf2
      simpa [List.append_assoc] using h
    rw [hdata]
    simp only [create_D_tuple, hname]
    norm_num [hvalue]
  · -- columns = 3: name, value, description
    show create_D_tuple server 3 tag (encodeDMessage [f1, f2, f3]) = _
    set L : Int := 4 + 2 + ((([f1, f2, f3]).flatMap encodeField).length : Int) with hL
    set hdr : List Nat := [68] ++ encodeInt32 L ++ [(3 : Nat) / 256 % 256, 3 % 256]
      with hhdr
    have hdata : encodeDMessage [f1, f2, f3] =
        hdr ++ (encodeField f1 ++ (encodeField f2 ++ encodeField f3)) := by
      simp [encodeDMessage, hL, hhdr, List.append_assoc]
    have hname : decodeField
        (hdr ++ (encodeField f1 ++ (encodeField f2 ++ encodeField f3))) 7 =
        (fieldVal f1, 7 + (encodeField f1).length) :=
      decodeField_encodeField hdr f1 (encodeField f2 ++ encodeField f3) 7
        (by simp [hhdr, length_encodeInt32]) hf1
    have hvalue : decodeField
        (hdr ++ (encodeField f1 ++ (encodeField f2 ++ encodeField f3)))
        (7 + (encodeField f1).length) =
        (fieldVal f2, 7 + (encodeField f1).length + (encodeField f2).length) := by
      have h := decodeField_encodeField (hdr ++ encodeField f1) f2 (encodeField f3)
        (7 + (encodeField f1).length)
        (by simp [hhdr, length_encodeInt32]; try omega) hf2
      simpa [List.append_assoc] using h
    have hdesc : decodeField
        (hdr ++ (encodeField f1 ++ (encodeField f2 ++ encodeField f3)))
        (7 + (encodeField f1).length + (encodeField f2).length) =
        (fieldVal f3, 7 + (encodeField f1).length + (encodeField f2).length +
          (encodeField f3).length) := by
      have h := decodeField_encodeField (hdr ++ encodeField f1 ++ encodeField f2) f3
        [] (7 + (encodeField f1).length + (encodeField f2).length)
        (by simp [hhdr, length_encodeInt32]; try omega) hf3
      simpa [List.append_assoc] using h
    rw [hdata]
    simp only [create_D_tuple, hname]
    norm_num [hvalue, hdesc]

theorem writeBytes_exact (A B C bs : List Nat) (off : Nat) (hoff : A.length = off)
    (hlen : B.length = bs.length) :
    writeBytes (A ++ (B ++ C)) off bs = A ++ (bs ++ C) := by
  subst hoff
  have h1 : (A ++ (B ++ C)).take A.length = A := List.take_left A (B ++ C)
  have h2 : (A ++ (B ++ C)).drop (A.length + bs.length) = C := by
    rw [← hlen, ← List.length_append A B, ← List.append_assoc, List.drop_left]
  unfold writeBytes
  rw [h1, h2, List.append_assoc]

/-- C5: the query frame built by `query_execute` is exactly one kind
byte ('Q', 81), then a four-byte big-endian length whose value is
4 + len(text) + 1 (covering the length field and the null-terminated
text but not the kind byte), then the text with a terminating null byte;
the total frame size is 1 + 4 + len(text) + 1. -/
theorem encode_simple_query_frame (q : List Nat)
    (h : (q.length : Int) + 5 < 2 ^ 31) :
    encodeSimpleQuery q =
      [81] ++ (encodeInt32 (4 + (q.length : Int) + 1) ++ (q ++ [0])) ∧
    (encodeSimpleQuery q).length = 1 + 4 + q.length + 1 ∧
    pgexporter_read_int32 (encodeSimpleQuery q) 1 = 4 + (q.length : Int) + 1 := by
  have hv : ((1 + 4 + q.length + 1 : Nat) : Int) - 1 = 4 + (q.length : Int) + 1 := by
    push_cast
    ring
  have hstruct : encodeSimpleQuery q =
      [81] ++ (encodeInt32 (4 + (q.length : Int) + 1) ++ (q ++ [0])) := by
    unfold encodeSimpleQuery pgexporter_write_string pgexporter_write_int32
      pgexporter_write_byte
    simp only [hv]
    have e1 : (1 + 4 + q.length + 1) = (4 + q.length + 1) + 1 := by omega
    rw [e1, List.replicate_succ, List.set_cons_zero]
    have e2 : (4 + q.length + 1) = 4 + (q.length + 1) := by omega
    rw [e2, List.replicate_add]
    have s2 := writeBytes_exact [81] (List.replicate 4 0)
      (List.replicate (q.length + 1) 0) (encodeInt32 (4 + (q.length : Int) + 1)) 1
      rfl (by simp [length_encodeInt32])
    rw [show (81 :: (List.replicate 4 0 ++ List.replicate (q.length + 1) 0) : List Nat) =
      [81] ++ (List.replicate 4 0 ++ List.replicate (q.length + 1) 0) from rfl, s2]
    have e3 : List.replicate (q.length + 1) (0 : Nat) =
        List.replicate q.length 0 ++ [0] := List.replicate_succ' _ _
    rw [e3]
    have s3 := writeBytes_exact ([81] ++ encodeInt32 (4 + (q.length : Int) + 1))
      (List.replicate q.length 0) [0] q 5
      (by simp [length_encodeInt32]) (by simp)
    rw [show ([81] ++ (encodeInt32 (4 + (q.length : Int) + 1) ++
        (List.replicate q.length 0 ++ [0])) : List Nat) =
      ([81] ++ encodeInt32 (4 + (q.length : Int) + 1)) ++
        (List.replicate q.length 0 ++ [0]) from by rw [List.append_assoc], s3,
      List.append_assoc]
  refine ⟨hstruct, ?_, ?_⟩
  · rw [hstruct]
    simp [length_encodeInt32]
    omega
  · rw [hstruct]
    exact read_write_int32 [81] (4 + (q.length : Int) + 1) (q ++ [0])
      (by omega) (by omega)

theorem parseLoop_eq_filter (server : Int) (columns : Int) (tag : List Nat) :
    ∀ n (d : List Nat), d.length ≤ n →
    parseLoop server columns tag d =
      ((splitMessages d).filter (fun m => m.kind == 68)).map
        (fun m => create_D_tuple server columns tag m.data) := by
  intro n
  induction n with
  | zero =>
    intro d hd
    have hnil : d = [] := List.length_eq_zero.mp (Nat.le_zero.mp hd)
    subst hnil
    simp [parseLoop, splitMessages]
  | succ n ih =>
    intro d hd
    cases d with
    | nil => simp [parseLoop, splitMessages]
    | cons b rest =>
      rw [parseLoop, splitMessages]
      have hlen : ((b :: rest).drop
          (1 + (pgexporter_read_int32 (b :: rest) 1).toNat)).length ≤ n := by
        simp at hd ⊢
        omega
      rw [ih _ hlen]
      by_cases hb : b = 68
      · simp [hb]
      · simp [hb]

/-- Witness for C3 at a concrete input: two expected columns, a present
name field "db" and an absent value field. -/
theorem create_D_tuple_wellformed_witness :
    create_D_tuple 1 2 [116]
        (encodeDMessage (([some [100, 98], none, some [120]]).take (2 : Int).toNat)) =
      { server := 1, columns := 2, tag := [116],
        name := fieldVal (some [100, 98]),
        value := if 2 ≤ (2 : Int) then fieldVal none else [],
        desc := if 3 ≤ (2 : Int) then fieldVal (some [120]) else [] } :=
  create_D_tuple_wellformed 1 [116] 2 (some [100, 98]) none (some [120])
    (by norm_num) (by norm_num)
    (by
      intro f hfm bs hbs
      fin_cases hfm
      · simp at hbs
        subst hbs
        norm_num
      · simp at hbs
      · simp at hbs
        subst hbs
        norm_num)

/-- Witness for C5 at the concrete query text "SEL". -/
theorem encode_simple_query_frame_witness :
    encodeSimpleQuery [83, 69, 76] =
      [81] ++ (encodeInt32 (4 + (([83, 69, 76] : List Nat).length : Int) + 1) ++
        ([83, 69, 76] ++ [0])) ∧
    (encodeSimpleQuery [83, 69, 76]).length = 1 + 4 + ([83, 69, 76] : List Nat).length + 1 ∧
    pgexporter_read_int32 (encodeSimpleQuery [83, 69, 76]) 1 =
      4 + (([83, 69, 76] : List Nat).length : Int) + 1 :=
  encode_simple_query_frame [83, 69, 76] (by norm_num)

/-- C4: when the send of the query frame fails, or a blocking read fails
during response accumulation, `query_execute` returns an error and
yields no tuple list — nothing decoded or accumulated before the failure
is delivered (the success constructor carrying tuples is never
produced). -/
theorem query_execute_transport_failure (server : Int) (query tag : List Nat)
    (columns : Int) (sendOk : Bool) (reads : List ReadResult)
    (hfail : sendOk = false ∨ accumulate reads [] = some (Except.error ())) :
    query_execute server query tag columns sendOk reads =
      some (Except.error ()) := by
  rcases hfail with h | h
  · simp [query_execute, h]
  · cases sendOk <;> simp [query_execute, h]

/-- Witness for C4: the first read delivers a row-data message, the
second read fails; the call errors and the accumulated row is not
delivered. -/
theorem query_execute_transport_failure_witness :
    query_execute 0 [] [] 2 true [ReadResult.ok [68, 0, 0, 0, 4], ReadResult.fail] =
      some (Except.error ()) :=
  query_execute_transport_failure 0 [] [] 2 true _
    (Or.inr (by
      simp [accumulate, pgexporter_has_message, splitMessages,
        pgexporter_read_int32]))

/-- C6: on a successful execution the returned tuple list is exactly one
single-node entry per 'D' message of the accumulated buffer, decoded by
`create_D_tuple` with the call's column count and tag, in message order;
messages of any other kind contribute nothing, and the list is empty
when no 'D' message occurs. -/
theorem query_execute_decodes_D_messages (server : Int) (query tag : List Nat)
    (columns : Int) (reads : List ReadResult) (data : List Nat)
    (hacc : accumulate reads [] = some (Except.ok data)) :
    query_execute server query tag columns true reads =
      some (Except.ok (((splitMessages data).filter (fun m => m.kind == 68)).map
        (fun m => create_D_tuple server columns tag m.data))) := by
  simp [query_execute, hacc,
    parseLoop_eq_filter server columns tag data.length data le_rfl]

/-- Witness for C6: a single read delivering the ready message. -/
theorem query_execute_decodes_D_messages_witness :
    query_execute 0 [] [] 2 true [ReadResult.ok [90, 0, 0, 0, 4]] =
      some (Except.ok (((splitMessages [90, 0, 0, 0, 4]).filter
          (fun m => m.kind == 68)).map
        (fun m => create_D_tuple 0 2 [] m.data))) :=
  query_execute_decodes_D_messages 0 [] [] 2 _ _
    (by
      simp [accumulate, pgexporter_has_message, splitMessages,
        pgexporter_read_int32])

end PgExporter
